import Mathlib

/-!
Verification of the outlier-detection core of the border-predictor bot.

The detector (inline in `main`, src/bot.py lines 206-273) classifies a target
trajectory against neighbor trajectories as `high`, `low`, or `None`.  Samples
read from the JSON documents may be numbers, the float NaN sentinel, or
non-numeric junk; neighbor entries in the mapping may themselves be malformed
(not a sequence), in which case the per-neighbor `try/except` skips them.
We embed numeric samples as rationals and keep NaN and non-numeric values as
explicit constructors, mirroring exactly the branches the Python code takes.
-/

/-- A sample value as read from a trajectory list: a number (int/float),
the float NaN sentinel (`v != v` in the source), or a non-numeric value
(comparing it raises `TypeError` in the source). -/
inductive Sample where
  | num (x : ℚ)
  | nan
  | nonNum
deriving DecidableEq, Repr

/-- The classification produced by the detector: `'high'`, `'low'`, or `None`. -/
inductive Direction where
  | high
  | low
  | none
deriving DecidableEq, Repr

/-- One entry of the `normalized_neighbors` mapping: either a proper series
of samples, or a malformed value (anything for which `len(neigh_series)` or
indexing raises, handled by the inner `except Exception: continue`). -/
inductive Neighbor where
  | series (s : List Sample)
  | malformed
deriving DecidableEq, Repr

/-- Python `max` over a non-empty list (`max_neighbor = max(neighbor_vals)`);
returns 0 on `[]`, but the source only calls it after the emptiness guard. -/
def maxQ : List ℚ → ℚ
  | [] => 0
  | x :: xs => xs.foldl max x

/-- Python `min` over a non-empty list (`min_neighbor = min(neighbor_vals)`). -/
def minQ : List ℚ → ℚ
  | [] => 0
  | x :: xs => xs.foldl min x

/-- The `neighbor_vals` list collected at index `i` (bot.py lines 228-237):
for each neighbor, if it is a proper series, the index is below its length,
and the value there is numeric and not NaN, the value is collected; malformed
neighbors hit the inner `except` and are skipped. -/
def neighborValsAt (neighbors : List Neighbor) (i : Nat) : List ℚ :=
  neighbors.filterMap fun nb =>
    match nb with
    | Neighbor.malformed => Option.none
    | Neighbor.series s =>
      match s.get? i with
      | Option.some (Sample.num x) => Option.some x
      | _ => Option.none

/-- The window radius hard-coded in bot.py line 218 (`window_radius = 2`). -/
def window_radius : Nat := 2

/-- The indices scanned by the loop (bot.py lines 219-226):
`end_idx = min(last_known_step_norm, len(target) - 1)`,
`start_idx = max(0, end_idx - window_radius)`, and the loop runs over
`range(start_idx, end_idx + 1)`. -/
def windowIdxs (targetLen : Nat) (lastKnown : Int) : List Nat :=
  let endIdx : Int := min lastKnown ((targetLen : Int) - 1)
  let startIdx : Int := max 0 (endIdx - (window_radius : Int))
  (List.range (endIdx + 1 - startIdx).toNat).map fun k => startIdx.toNat + k

/-- Outcome of the scanning loop: the final `checked_count`, `all_above`,
`all_below` state, or an uncaught exception inside the loop body (an
out-of-range target read or a `TypeError` from comparing a non-numeric
target value), which the outer `except` turns into `None`. -/
inductive ScanResult where
  | ok (checked : Nat) (allAbove allBelow : Bool)
  | exn
deriving DecidableEq, Repr

/-- The comparison loop of bot.py lines 226-254.  At each index: read the
target value (raising = `exn` if out of range), collect `neighbor_vals`,
skip the index if none, otherwise compare; a NaN target makes both strict
comparisons false (flags cleared, then the early exit fires); a non-numeric
target raises on comparison (`exn`); otherwise the flags are and-ed with the
strict comparisons against `max`/`min` and the loop exits early once both
flags are false. -/
def scanLoop (target : List Sample) (neighbors : List Neighbor) :
    List Nat → Nat → Bool → Bool → ScanResult
  | [], checked, allAbove, allBelow => ScanResult.ok checked allAbove allBelow
  | i :: rest, checked, allAbove, allBelow =>
    match target.get? i with
    | Option.none => ScanResult.exn
    | Option.some tVal =>
      if neighborValsAt neighbors i = [] then
        scanLoop target neighbors rest checked allAbove allBelow
      else
        match tVal with
        | Sample.nonNum => ScanResult.exn
        | Sample.nan => ScanResult.ok (checked + 1) false false
        | Sample.num x =>
          let allAbove2 := allAbove && decide (maxQ (neighborValsAt neighbors i) < x)
          let allBelow2 := allBelow && decide (x < minQ (neighborValsAt neighbors i))
          if allAbove2 || allBelow2 then
            scanLoop target neighbors rest (checked + 1) allAbove2 allBelow2
          else
            ScanResult.ok (checked + 1) allAbove2 allBelow2

/-- The detection body inside the outer `try` (bot.py lines 212-269), for a
present target list and neighbor mapping: the emptiness guard, the scan over
the window anchored at the last-known-step index, and the final
classification (`checked_count == 0` → `None`, else `all_above` → `'high'`,
else `all_below` → `'low'`, else `None`). -/
def detectCore (target : List Sample) (neighbors : List Neighbor)
    (lastKnown : Int) : Direction :=
  if target = [] ∨ neighbors = [] then Direction.none
  else
    match scanLoop target neighbors (windowIdxs target.length lastKnown) 0 true true with
    | ScanResult.exn => Direction.none
    | ScanResult.ok checked allAbove allBelow =>
      if checked = 0 then Direction.none
      else if allAbove then Direction.high
      else if allBelow then Direction.low
      else Direction.none

/-- The whole outlier-detection step: `target` and `neighbors` are fetched
with `.get(...)` and may be absent (`None`), which the truthiness guard
`not target or len(target) == 0 or not normalized_neighbors` sends to
`None`. -/
def detectOutlier (target? : Option (List Sample)) (neighbors? : Option (List Neighbor))
    (lastKnown : Int) : Direction :=
  match target?, neighbors? with
  | Option.some target, Option.some neighbors => detectCore target neighbors lastKnown
  | _, _ => Direction.none

/-- Detector variant following the spec's own words for claim C2 ("the
trailing `window_size` indices of the series, aligned by position from the
end of each sequence, i.e. index `-window_size .. -1` in each trajectory"):
each series is replaced by its trailing `windowSize` samples and the scan
runs position-wise over those tails.  Used only for comparison against
`detectOutlier`, which anchors at the last-known-step index instead. -/
def detectOutlierTrailing (target : List Sample) (neighbors : List Neighbor)
    (windowSize : Nat) : Direction :=
  if target = [] ∨ neighbors = [] then Direction.none
  else
    let tTail := target.drop (target.length - windowSize)
    let nTail := neighbors.map fun nb =>
      match nb with
      | Neighbor.series s => Neighbor.series (s.drop (s.length - windowSize))
      | Neighbor.malformed => Neighbor.malformed
    match scanLoop tTail nTail (List.range tTail.length) 0 true true with
    | ScanResult.exn => Direction.none
    | ScanResult.ok checked allAbove allBelow =>
      if checked = 0 then Direction.none
      else if allAbove then Direction.high
      else if allBelow then Direction.low
      else Direction.none

/-- Decidable statement that at index `i` the target value is a number
strictly above every collected neighbor value. -/
def targetAboveB (target : List Sample) (neighbors : List Neighbor) (i : Nat) : Bool :=
  match target.get? i with
  | Option.some (Sample.num x) => (neighborValsAt neighbors i).all fun v => decide (v < x)
  | _ => false

/-- Decidable statement that at index `i` the target value is a number
strictly below every collected neighbor value. -/
def targetBelowB (target : List Sample) (neighbors : List Neighbor) (i : Nat) : Bool :=
  match target.get? i with
  | Option.some (Sample.num x) => (neighborValsAt neighbors i).all fun v => decide (x < v)
  | _ => false

/-- Propositional form used inside the loop invariants: the target value at
`i` is a number strictly above the maximum collected neighbor value. -/
def aboveAtP (target : List Sample) (neighbors : List Neighbor) (i : Nat) : Prop :=
  ∃ x, target.get? i = Option.some (Sample.num x) ∧ maxQ (neighborValsAt neighbors i) < x

/-- Propositional form: the target value at `i` is a number strictly below
the minimum collected neighbor value. -/
def belowAtP (target : List Sample) (neighbors : List Neighbor) (i : Nat) : Prop :=
  ∃ x, target.get? i = Option.some (Sample.num x) ∧ x < minQ (neighborValsAt neighbors i)

/-- Boolean infix test on character lists, used to talk about substring
presence in the composed report text. -/
def listContains (pat : List Char) : List Char → Bool
  | [] => pat.isEmpty
  | c :: rest => pat.isPrefixOf (c :: rest) || listContains pat rest

/-- `containsSub s pat` holds when `pat` occurs as a contiguous substring
of `s`. -/
def containsSub (s pat : String) : Bool :=
  listContains pat.data s.data

/-- The per-border caveat appended to the tweet text (bot.py lines 319-326):
present exactly when the outlier direction is `'high'` or `'low'`, with the
direction-specific phrases. -/
def borderWarningLine (d : Direction) : String :=
  if d = Direction.high ∨ d = Direction.low then
    let directionText := if d = Direction.high then "高め" else "低め"
    let resultTrendText := if d = Direction.high then "下振れ" else "上振れ"
    "  ※このボーダーは過去同タイプ比で" ++ directionText ++ "のため、予測は" ++
      resultTrendText ++ "注意。\n\n"
  else "\n"

/-- The per-border section of the composed tweet text (bot.py lines
315-326).  The score strings are the already-formatted outputs of
`format_score_jp`, passed in as opaque text since number formatting is not
part of the phrasing logic under scrutiny. -/
def borderBlockText (border : Nat) (scoreStr ci90Lo ci90Hi ci75Lo ci75Hi : String)
    (d : Direction) : String :=
  "- " ++ toString border ++ "位予測値：" ++ scoreStr ++ "\n" ++
    "  - 90%CI：" ++ ci90Lo ++ "-" ++ ci90Hi ++ "\n" ++
    "  - 75%CI：" ++ ci75Lo ++ "-" ++ ci75Hi ++ "\n" ++
    borderWarningLine d

/-- The warning annotation drawn on the summary image
(utils/image_generator.py lines 143-153): drawn exactly when
`outlier_direction in ('high', 'low')` (`has_warning`), with the same
direction-specific phrase pair. -/
def imageWarnText (d : Direction) : Option String :=
  if d = Direction.high ∨ d = Direction.low then
    let directionShort := if d = Direction.high then "高め" else "低め"
    let resultTrendText := if d = Direction.high then "下振れ" else "上振れ"
    Option.some ("※このボーダーは過去同タイプ比で" ++ directionShort ++ "のため、予測は" ++
      resultTrendText ++ "しやすいです。")
  else Option.none

/-! ### Helper lemmas about `maxQ` and `minQ` -/

theorem le_foldl_max_init (xs : List ℚ) : ∀ a : ℚ, a ≤ xs.foldl max a := by
  induction xs with
  | nil => intro a; exact le_refl a
  | cons x xs ih => intro a; exact le_trans (le_max_left a x) (ih (max a x))

theorem le_foldl_max_mem (xs : List ℚ) : ∀ (a v : ℚ), v ∈ xs → v ≤ xs.foldl max a := by
  induction xs with
  | nil => intro a v h; exact absurd h (List.not_mem_nil v)
  | cons x xs ih =>
    intro a v hv
    rcases List.mem_cons.mp hv with rfl | h
    · exact le_trans (le_max_right a v) (le_foldl_max_init xs (max a v))
    · exact ih (max a x) v h

theorem foldl_max_choice (xs : List ℚ) : ∀ a : ℚ, xs.foldl max a = a ∨ xs.foldl max a ∈ xs := by
  induction xs with
  | nil => intro a; left; rfl
  | cons x xs ih =>
    intro a
    rcases ih (max a x) with h | h
    · rw [List.foldl_cons, h]
      rcases max_choice a x with h2 | h2
      · left; exact h2
      · right; rw [h2]; exact List.mem_cons_self x xs
    · right; exact List.mem_cons_of_mem x h

theorem foldl_min_init_le (xs : List ℚ) : ∀ a : ℚ, xs.foldl min a ≤ a := by
  induction xs with
  | nil => intro a; exact le_refl a
  | cons x xs ih => intro a; exact le_trans (ih (min a x)) (min_le_left a x)

theorem foldl_min_le_mem (xs : List ℚ) : ∀ (a v : ℚ), v ∈ xs → xs.foldl min a ≤ v := by
  induction xs with
  | nil => intro a v h; exact absurd h (List.not_mem_nil v)
  | cons x xs ih =>
    intro a v hv
    rcases List.mem_cons.mp hv with rfl | h
    · exact le_trans (foldl_min_init_le xs (min a v)) (min_le_right a v)
    · exact ih (min a x) v h

theorem foldl_min_choice (xs : List ℚ) : ∀ a : ℚ, xs.foldl min a = a ∨ xs.foldl min a ∈ xs := by
  induction xs with
  | nil => intro a; left; rfl
  | cons x xs ih =>
    intro a
    rcases ih (min a x) with h | h
    · rw [List.foldl_cons, h]
      rcases min_choice a x with h2 | h2
      · left; exact h2
      · right; rw [h2]; exact List.mem_cons_self x xs
    · right; exact List.mem_cons_of_mem x h

theorem le_maxQ {l : List ℚ} {v : ℚ} (hv : v ∈ l) : v ≤ maxQ l := by
  cases l with
  | nil => exact absurd hv (List.not_mem_nil v)
  | cons x xs =>
    rcases List.mem_cons.mp hv with rfl | h
    · exact le_foldl_max_init xs v
    · exact le_foldl_max_mem xs x v h

theorem maxQ_mem {l : List ℚ} (h : l ≠ []) : maxQ l ∈ l := by
  cases l with
  | nil => exact absurd rfl h
  | cons x xs =>
    rcases foldl_max_choice xs x with h2 | h2
    · rw [show maxQ (x :: xs) = xs.foldl max x from rfl, h2]
      exact List.mem_cons_self x xs
    · exact List.mem_cons_of_mem x h2

theorem minQ_le {l : List ℚ} {v : ℚ} (hv : v ∈ l) : minQ l ≤ v := by
  cases l with
  | nil => exact absurd hv (List.not_mem_nil v)
  | cons x xs =>
    rcases List.mem_cons.mp hv with rfl | h
    · exact foldl_min_init_le xs v
    · exact foldl_min_le_mem xs x v h

theorem minQ_mem {l : List ℚ} (h : l ≠ []) : minQ l ∈ l := by
  cases l with
  | nil => exact absurd rfl h
  | cons x xs =>
    rcases foldl_min_choice xs x with h2 | h2
    · rw [show minQ (x :: xs) = xs.foldl min x from rfl, h2]
      exact List.mem_cons_self x xs
    · exact List.mem_cons_of_mem x h2

/-! ### Helper lemmas about the comparison window -/

theorem windowIdxs_mem_lt {len : Nat} {lk : Int} (hlen : 0 < len) :
    ∀ i ∈ windowIdxs len lk, i < len := by
  intro i hi
  unfold windowIdxs at hi
  simp only [List.mem_map, List.mem_range] at hi
  obtain ⟨k, hk, rfl⟩ := hi
  have h1 : min lk ((len : Int) - 1) ≤ (len : Int) - 1 := min_le_right _ _
  have h2 : (0 : Int) ≤ max 0 (min lk ((len : Int) - 1) - (window_radius : Int)) :=
    le_max_left _ _
  omega

theorem windowIdxs_neg {len : Nat} {lk : Int} (hlk : lk < 0) : windowIdxs len lk = [] := by
  unfold windowIdxs
  have h1 : min lk ((len : Int) - 1) ≤ lk := min_le_left _ _
  have h2 : (0 : Int) ≤ max 0 (min lk ((len : Int) - 1) - (window_radius : Int)) :=
    le_max_left _ _
  have h3 : (min lk ((len : Int) - 1) + 1 -
      max 0 (min lk ((len : Int) - 1) - (window_radius : Int))).toNat = 0 := by omega
  simp only [h3, List.range_zero, List.map_nil]

theorem windowIdxs_zero_len (lk : Int) : windowIdxs 0 lk = [] := by
  unfold windowIdxs
  have h1 : min lk (((0 : Nat) : Int) - 1) ≤ ((0 : Nat) : Int) - 1 := min_le_right _ _
  have h2 : (0 : Int) ≤ max 0 (min lk (((0 : Nat) : Int) - 1) - (window_radius : Int)) :=
    le_max_left _ _
  have h3 : (min lk (((0 : Nat) : Int) - 1) + 1 -
      max 0 (min lk (((0 : Nat) : Int) - 1) - (window_radius : Int))).toNat = 0 := by omega
  simp only [h3, List.range_zero, List.map_nil]

/-! ### Step lemmas for the scan loop -/

theorem get?_some_of_lt {α : Type} (l : List α) (i : Nat) (h : i < l.length) :
    ∃ a, l.get? i = Option.some a := by
  cases hg : l.get? i with
  | none =>
    exfalso
    have := List.get?_eq_none.mp hg
    omega
  | some a => exact ⟨a, rfl⟩

theorem scanLoop_nil (t : List Sample) (n : List Neighbor) (c : Nat) (aa ab : Bool) :
    scanLoop t n [] c aa ab = ScanResult.ok c aa ab := rfl

theorem scanLoop_cons_oob (t : List Sample) (n : List Neighbor) (i : Nat) (rest : List Nat)
    (c : Nat) (aa ab : Bool) (hget : t.get? i = Option.none) :
    scanLoop t n (i :: rest) c aa ab = ScanResult.exn := by
  simp only [scanLoop, hget]

theorem scanLoop_cons_skip (t : List Sample) (n : List Neighbor) (i : Nat) (rest : List Nat)
    (c : Nat) (aa ab : Bool) (tv : Sample) (hget : t.get? i = Option.some tv)
    (hnv : neighborValsAt n i = []) :
    scanLoop t n (i :: rest) c aa ab = scanLoop t n rest c aa ab := by
  simp only [scanLoop, hget, if_pos hnv]

theorem scanLoop_cons_nonNum (t : List Sample) (n : List Neighbor) (i : Nat) (rest : List Nat)
    (c : Nat) (aa ab : Bool) (hget : t.get? i = Option.some Sample.nonNum)
    (hnv : neighborValsAt n i ≠ []) :
    scanLoop t n (i :: rest) c aa ab = ScanResult.exn := by
  simp only [scanLoop, hget, if_neg hnv]

theorem scanLoop_cons_nan (t : List Sample) (n : List Neighbor) (i : Nat) (rest : List Nat)
    (c : Nat) (aa ab : Bool) (hget : t.get? i = Option.some Sample.nan)
    (hnv : neighborValsAt n i ≠ []) :
    scanLoop t n (i :: rest) c aa ab = ScanResult.ok (c + 1) false false := by
  simp only [scanLoop, hget, if_neg hnv]

theorem scanLoop_cons_num (t : List Sample) (n : List Neighbor) (i : Nat) (rest : List Nat)
    (c : Nat) (aa ab : Bool) (x : ℚ) (hget : t.get? i = Option.some (Sample.num x))
    (hnv : neighborValsAt n i ≠ []) :
    scanLoop t n (i :: rest) c aa ab =
      if (aa && decide (maxQ (neighborValsAt n i) < x))
          || (ab && decide (x < minQ (neighborValsAt n i))) then
        scanLoop t n rest (c + 1) (aa && decide (maxQ (neighborValsAt n i) < x))
          (ab && decide (x < minQ (neighborValsAt n i)))
      else
        ScanResult.ok (c + 1) (aa && decide (maxQ (neighborValsAt n i) < x))
          (ab && decide (x < minQ (neighborValsAt n i))) := by
  simp only [scanLoop, hget, if_neg hnv]

/-- Number of window indices the loop counts as checked (those with at least
one collected neighbor value), matching `checked_count` for a run without an
early exit. -/
def checkedCount (n : List Neighbor) (idxs : List Nat) : Nat :=
  idxs.countP fun i => !(neighborValsAt n i).isEmpty

theorem checkedCount_nil (n : List Neighbor) : checkedCount n [] = 0 := rfl

theorem checkedCount_cons_skip (n : List Neighbor) (i : Nat) (rest : List Nat)
    (hnv : neighborValsAt n i = []) :
    checkedCount n (i :: rest) = checkedCount n rest := by
  simp [checkedCount, List.countP_cons, hnv]

theorem checkedCount_cons_hit (n : List Neighbor) (i : Nat) (rest : List Nat)
    (hnv : neighborValsAt n i ≠ []) :
    checkedCount n (i :: rest) = checkedCount n rest + 1 := by
  simp [checkedCount, List.countP_cons, hnv]

theorem checkedCount_pos (n : List Neighbor) (idxs : List Nat)
    (h : ∃ i ∈ idxs, neighborValsAt n i ≠ []) : checkedCount n idxs ≠ 0 := by
  obtain ⟨i, hi, hnv⟩ := h
  have : 0 < checkedCount n idxs := by
    apply List.countP_pos_iff.mpr
    exact ⟨i, hi, by simp [hnv]⟩
  omega

/-! ### Loop invariants -/

theorem scan_above_run (t : List Sample) (n : List Neighbor) (idxs : List Nat)
    (hin : ∀ i ∈ idxs, i < t.length)
    (habv : ∀ i ∈ idxs, neighborValsAt n i ≠ [] → aboveAtP t n i) :
    ∀ (c : Nat) (ab : Bool), ∃ ab2, scanLoop t n idxs c true ab =
      ScanResult.ok (c + checkedCount n idxs) true ab2 := by
  induction idxs with
  | nil =>
    intro c ab
    exact ⟨ab, by simp [scanLoop_nil, checkedCount_nil]⟩
  | cons i rest ih =>
    intro c ab
    have hi : i < t.length := hin i (List.mem_cons_self i rest)
    obtain ⟨tv, hget⟩ := get?_some_of_lt t i hi
    have hin2 : ∀ j ∈ rest, j < t.length := fun j hj => hin j (List.mem_cons_of_mem i hj)
    have habv2 : ∀ j ∈ rest, neighborValsAt n j ≠ [] → aboveAtP t n j :=
      fun j hj => habv j (List.mem_cons_of_mem i hj)
    by_cases hnv : neighborValsAt n i = []
    · rw [scanLoop_cons_skip t n i rest c true ab tv hget hnv,
        checkedCount_cons_skip n i rest hnv]
      exact ih hin2 habv2 c ab
    · obtain ⟨x, hx, hmax⟩ := habv i (List.mem_cons_self i rest) hnv
      have htv : tv = Sample.num x := by
        rw [hget] at hx
        exact (Option.some.injEq _ _).mp hx
      subst htv
      rw [scanLoop_cons_num t n i rest c true ab x hget hnv]
      have haa2 : (true && decide (maxQ (neighborValsAt n i) < x)) = true := by
        simp [hmax]
      rw [haa2]
      simp only [Bool.true_or, if_true]
      obtain ⟨ab2, hrest⟩ :=
        ih hin2 habv2 (c + 1) (ab && decide (x < minQ (neighborValsAt n i)))
      refine ⟨ab2, ?_⟩
      rw [hrest, checkedCount_cons_hit n i rest hnv]
      congr 1
      omega

theorem scan_below_run (t : List Sample) (n : List Neighbor) (idxs : List Nat)
    (hin : ∀ i ∈ idxs, i < t.length)
    (hbel : ∀ i ∈ idxs, neighborValsAt n i ≠ [] → belowAtP t n i) :
    ∀ (c : Nat) (aa : Bool), ∃ aa2, scanLoop t n idxs c aa true =
      ScanResult.ok (c + checkedCount n idxs) aa2 true ∧
      (aa = false → aa2 = false) ∧ (checkedCount n idxs ≠ 0 → aa2 = false) := by
  induction idxs with
  | nil =>
    intro c aa
    refine ⟨aa, by simp [scanLoop_nil, checkedCount_nil], fun h => h, fun h => ?_⟩
    exact absurd (checkedCount_nil n) h
  | cons i rest ih =>
    intro c aa
    have hi : i < t.length := hin i (List.mem_cons_self i rest)
    obtain ⟨tv, hget⟩ := get?_some_of_lt t i hi
    have hin2 : ∀ j ∈ rest, j < t.length := fun j hj => hin j (List.mem_cons_of_mem i hj)
    have hbel2 : ∀ j ∈ rest, neighborValsAt n j ≠ [] → belowAtP t n j :=
      fun j hj => hbel j (List.mem_cons_of_mem i hj)
    by_cases hnv : neighborValsAt n i = []
    · rw [scanLoop_cons_skip t n i rest c aa true tv hget hnv,
        checkedCount_cons_skip n i rest hnv]
      exact ih hin2 hbel2 c aa
    · obtain ⟨x, hx, hmin⟩ := hbel i (List.mem_cons_self i rest) hnv
      have htv : tv = Sample.num x := by
        rw [hget] at hx
        exact (Option.some.injEq _ _).mp hx
      subst htv
      rw [scanLoop_cons_num t n i rest c aa true x hget hnv]
      have hnotmax : ¬ (maxQ (neighborValsAt n i) < x) := by
        have h1 : minQ (neighborValsAt n i) ≤ maxQ (neighborValsAt n i) :=
          minQ_le (maxQ_mem hnv)
        exact not_lt_of_gt (lt_of_lt_of_le hmin h1)
      have haa2 : (aa && decide (maxQ (neighborValsAt n i) < x)) = false := by
        simp [hnotmax]
      have hab2 : (true && decide (x < minQ (neighborValsAt n i))) = true := by
        simp [hmin]
      rw [haa2, hab2]
      simp only [Bool.or_true, if_true]
      obtain ⟨aa2, hrest, himp, hcnt⟩ := ih hin2 hbel2 (c + 1) false
      refine ⟨aa2, ?_, fun _ => himp rfl, fun _ => himp rfl⟩
      rw [hrest, checkedCount_cons_hit n i rest hnv]
      congr 1
      omega

theorem scan_all_skip (t : List Sample) (n : List Neighbor) (idxs : List Nat)
    (hin : ∀ i ∈ idxs, i < t.length)
    (hnv : ∀ i ∈ idxs, neighborValsAt n i = []) :
    ∀ (c : Nat) (aa ab : Bool), scanLoop t n idxs c aa ab = ScanResult.ok c aa ab := by
  induction idxs with
  | nil => intro c aa ab; exact scanLoop_nil t n c aa ab
  | cons i rest ih =>
    intro c aa ab
    have hi : i < t.length := hin i (List.mem_cons_self i rest)
    obtain ⟨tv, hget⟩ := get?_some_of_lt t i hi
    rw [scanLoop_cons_skip t n i rest c aa ab tv hget (hnv i (List.mem_cons_self i rest))]
    exact ih (fun j hj => hin j (List.mem_cons_of_mem i hj))
      (fun j hj => hnv j (List.mem_cons_of_mem i hj)) c aa ab

theorem scan_mono (t : List Sample) (n : List Neighbor) (idxs : List Nat) :
    ∀ (c : Nat) (aa ab : Bool) (c2 : Nat) (aa2 ab2 : Bool),
      scanLoop t n idxs c aa ab = ScanResult.ok c2 aa2 ab2 →
      (aa2 = true → aa = true) ∧ (ab2 = true → ab = true) := by
  induction idxs with
  | nil =>
    intro c aa ab c2 aa2 ab2 h
    rw [scanLoop_nil] at h
    injection h with h1 h2 h3
    exact ⟨fun hh => h2 ▸ hh, fun hh => h3 ▸ hh⟩
  | cons i rest ih =>
    intro c aa ab c2 aa2 ab2 h
    cases hget : t.get? i with
    | none =>
      rw [scanLoop_cons_oob t n i rest c aa ab hget] at h
      exact absurd h (by simp)
    | some tv =>
      by_cases hnv : neighborValsAt n i = []
      · rw [scanLoop_cons_skip t n i rest c aa ab tv hget hnv] at h
        exact ih c aa ab c2 aa2 ab2 h
      · cases tv with
        | nonNum =>
          rw [scanLoop_cons_nonNum t n i rest c aa ab hget hnv] at h
          exact absurd h (by simp)
        | nan =>
          rw [scanLoop_cons_nan t n i rest c aa ab hget hnv] at h
          injection h with h1 h2 h3
          constructor
          · intro hh; exact absurd (h2 ▸ hh) (by simp)
          · intro hh; exact absurd (h3 ▸ hh) (by simp)
        | num x =>
          rw [scanLoop_cons_num t n i rest c aa ab x hget hnv] at h
          by_cases hb : ((aa && decide (maxQ (neighborValsAt n i) < x))
              || (ab && decide (x < minQ (neighborValsAt n i)))) = true
          · rw [if_pos hb] at h
            have := ih (c + 1) (aa && decide (maxQ (neighborValsAt n i) < x))
              (ab && decide (x < minQ (neighborValsAt n i))) c2 aa2 ab2 h
            constructor
            · intro hh
              have h1 := this.1 hh
              exact (Bool.and_eq_true _ _).mp h1 |>.1
            · intro hh
              have h1 := this.2 hh
              exact (Bool.and_eq_true _ _).mp h1 |>.1
          · rw [if_neg hb] at h
            injection h with h1 h2 h3
            constructor
            · intro hh
              have := h2 ▸ hh
              exact (Bool.and_eq_true _ _).mp this |>.1
            · intro hh
              have := h3 ▸ hh
              exact (Bool.and_eq_true _ _).mp this |>.1

theorem scan_ok_above_all (t : List Sample) (n : List Neighbor) (idxs : List Nat) :
    ∀ (c : Nat) (aa ab : Bool) (c2 : Nat) (ab2 : Bool),
      scanLoop t n idxs c aa ab = ScanResult.ok c2 true ab2 →
      ∀ i ∈ idxs, neighborValsAt n i ≠ [] → aboveAtP t n i := by
  induction idxs with
  | nil =>
    intro c aa ab c2 ab2 h i hi
    exact absurd hi (List.not_mem_nil i)
  | cons i rest ih =>
    intro c aa ab c2 ab2 h j hj hnvj
    cases hget : t.get? i with
    | none =>
      rw [scanLoop_cons_oob t n i rest c aa ab hget] at h
      exact absurd h (by simp)
    | some tv =>
      by_cases hnv : neighborValsAt n i = []
      · rw [scanLoop_cons_skip t n i rest c aa ab tv hget hnv] at h
        rcases List.mem_cons.mp hj with rfl | hj2
        · exact absurd hnv hnvj
        · exact ih c aa ab c2 ab2 h j hj2 hnvj
      · cases tv with
        | nonNum =>
          rw [scanLoop_cons_nonNum t n i rest c aa ab hget hnv] at h
          exact absurd h (by simp)
        | nan =>
          rw [scanLoop_cons_nan t n i rest c aa ab hget hnv] at h
          injection h with h1 h2 h3
          exact absurd h2.symm (by simp)
        | num x =>
          rw [scanLoop_cons_num t n i rest c aa ab x hget hnv] at h
          by_cases hb : ((aa && decide (maxQ (neighborValsAt n i) < x))
              || (ab && decide (x < minQ (neighborValsAt n i)))) = true
          · rw [if_pos hb] at h
            rcases List.mem_cons.mp hj with rfl | hj2
            · have hmono := (scan_mono t n rest (c + 1)
                (aa && decide (maxQ (neighborValsAt n j) < x))
                (ab && decide (x < minQ (neighborValsAt n j))) c2 true ab2 h).1 rfl
              have hdec := ((Bool.and_eq_true _ _).mp hmono).2
              exact ⟨x, hget, of_decide_eq_true hdec⟩
            · exact ih (c + 1) _ _ c2 ab2 h j hj2 hnvj
          · rw [if_neg hb] at h
            injection h with h1 h2 h3
            exact absurd (by simp [h2] : ((aa && decide (maxQ (neighborValsAt n i) < x))
              || (ab && decide (x < minQ (neighborValsAt n i)))) = true) hb

theorem scan_ok_below_all (t : List Sample) (n : List Neighbor) (idxs : List Nat) :
    ∀ (c : Nat) (aa ab : Bool) (c2 : Nat) (aa2 : Bool),
      scanLoop t n idxs c aa ab = ScanResult.ok c2 aa2 true →
      ∀ i ∈ idxs, neighborValsAt n i ≠ [] → belowAtP t n i := by
  induction idxs with
  | nil =>
    intro c aa ab c2 aa2 h i hi
    exact absurd hi (List.not_mem_nil i)
  | cons i rest ih =>
    intro c aa ab c2 aa2 h j hj hnvj
    cases hget : t.get? i with
    | none =>
      rw [scanLoop_cons_oob t n i rest c aa ab hget] at h
      exact absurd h (by simp)
    | some tv =>
      by_cases hnv : neighborValsAt n i = []
      · rw [scanLoop_cons_skip t n i rest c aa ab tv hget hnv] at h
        rcases List.mem_cons.mp hj with rfl | hj2
        · exact absurd hnv hnvj
        · exact ih c aa ab c2 aa2 h j hj2 hnvj
      · cases tv with
        | nonNum =>
          rw [scanLoop_cons_nonNum t n i rest c aa ab hget hnv] at h
          exact absurd h (by simp)
        | nan =>
          rw [scanLoop_cons_nan t n i rest c aa ab hget hnv] at h
          injection h with h1 h2 h3
          exact absurd h3.symm (by simp)
        | num x =>
          rw [scanLoop_cons_num t n i rest c aa ab x hget hnv] at h
          by_cases hb : ((aa && decide (maxQ (neighborValsAt n i) < x))
              || (ab && decide (x < minQ (neighborValsAt n i)))) = true
          · rw [if_pos hb] at h
            rcases List.mem_cons.mp hj with rfl | hj2
            · have hmono := (scan_mono t n rest (c + 1)
                (aa && decide (maxQ (neighborValsAt n j) < x))
                (ab && decide (x < minQ (neighborValsAt n j))) c2 aa2 true h).2 rfl
              have hdec := ((Bool.and_eq_true _ _).mp hmono).2
              exact ⟨x, hget, of_decide_eq_true hdec⟩
            · exact ih (c + 1) _ _ c2 aa2 h j hj2 hnvj
          · rw [if_neg hb] at h
            injection h with h1 h2 h3
            exact absurd (by simp [h3] : ((aa && decide (maxQ (neighborValsAt n i) < x))
              || (ab && decide (x < minQ (neighborValsAt n i)))) = true) hb

theorem scan_congr_target (t t2 : List Sample) (n : List Neighbor) (idxs : List Nat)
    (h : ∀ i ∈ idxs, t.get? i = t2.get? i) :
    ∀ (c : Nat) (aa ab : Bool), scanLoop t n idxs c aa ab = scanLoop t2 n idxs c aa ab := by
  induction idxs with
  | nil => intro c aa ab; rfl
  | cons i rest ih =>
    intro c aa ab
    have hi : t.get? i = t2.get? i := h i (List.mem_cons_self i rest)
    have h2 : ∀ j ∈ rest, t.get? j = t2.get? j := fun j hj => h j (List.mem_cons_of_mem i hj)
    cases hget : t2.get? i with
    | none =>
      rw [scanLoop_cons_oob t n i rest c aa ab (hi.trans hget),
        scanLoop_cons_oob t2 n i rest c aa ab hget]
    | some tv =>
      by_cases hnv : neighborValsAt n i = []
      · rw [scanLoop_cons_skip t n i rest c aa ab tv (hi.trans hget) hnv,
          scanLoop_cons_skip t2 n i rest c aa ab tv hget hnv]
        exact ih h2 c aa ab
      · cases tv with
        | nonNum =>
          rw [scanLoop_cons_nonNum t n i rest c aa ab (hi.trans hget) hnv,
            scanLoop_cons_nonNum t2 n i rest c aa ab hget hnv]
        | nan =>
          rw [scanLoop_cons_nan t n i rest c aa ab (hi.trans hget) hnv,
            scanLoop_cons_nan t2 n i rest c aa ab hget hnv]
        | num x =>
          rw [scanLoop_cons_num t n i rest c aa ab x (hi.trans hget) hnv,
            scanLoop_cons_num t2 n i rest c aa ab x hget hnv]
          by_cases hb : ((aa && decide (maxQ (neighborValsAt n i) < x))
              || (ab && decide (x < minQ (neighborValsAt n i)))) = true
          · rw [if_pos hb, if_pos hb]
            exact ih h2 (c + 1) _ _
          · rw [if_neg hb, if_neg hb]

theorem scan_congr_nvals (t : List Sample) (n n2 : List Neighbor)
    (h : ∀ i, neighborValsAt n i = neighborValsAt n2 i) (idxs : List Nat) :
    ∀ (c : Nat) (aa ab : Bool), scanLoop t n idxs c aa ab = scanLoop t n2 idxs c aa ab := by
  induction idxs with
  | nil => intro c aa ab; rfl
  | cons i rest ih =>
    intro c aa ab
    cases hget : t.get? i with
    | none =>
      rw [scanLoop_cons_oob t n i rest c aa ab hget,
        scanLoop_cons_oob t n2 i rest c aa ab hget]
    | some tv =>
      by_cases hnv : neighborValsAt n2 i = []
      · rw [scanLoop_cons_skip t n i rest c aa ab tv hget ((h i).trans hnv),
          scanLoop_cons_skip t n2 i rest c aa ab tv hget hnv]
        exact ih c aa ab
      · have hnv1 : neighborValsAt n i ≠ [] := fun hc => hnv ((h i).symm.trans hc)
        cases tv with
        | nonNum =>
          rw [scanLoop_cons_nonNum t n i rest c aa ab hget hnv1,
            scanLoop_cons_nonNum t n2 i rest c aa ab hget hnv]
        | nan =>
          rw [scanLoop_cons_nan t n i rest c aa ab hget hnv1,
            scanLoop_cons_nan t n2 i rest c aa ab hget hnv]
        | num x =>
          rw [scanLoop_cons_num t n i rest c aa ab x hget hnv1,
            scanLoop_cons_num t n2 i rest c aa ab x hget hnv, h i]
          by_cases hb : ((aa && decide (maxQ (neighborValsAt n2 i) < x))
              || (ab && decide (x < minQ (neighborValsAt n2 i)))) = true
          · rw [if_pos hb, if_pos hb]
            exact ih (c + 1) _ _
          · rw [if_neg hb, if_neg hb]

/-! ### Bridges between the decidable predicates and the loop invariants -/

theorem neighborValsAt_nil (i : Nat) : neighborValsAt [] i = [] := rfl

theorem targetAboveB_iff (t : List Sample) (n : List Neighbor) (i : Nat)
    (hnv : neighborValsAt n i ≠ []) :
    targetAboveB t n i = true ↔ aboveAtP t n i := by
  unfold targetAboveB aboveAtP
  cases hget : t.get? i with
  | none => simp
  | some tv =>
    cases tv with
    | num x =>
      simp only [List.all_eq_true, decide_eq_true_eq, Option.some.injEq, Sample.num.injEq]
      constructor
      · intro h
        exact ⟨x, rfl, h (maxQ (neighborValsAt n i)) (maxQ_mem hnv)⟩
      · rintro ⟨x2, hx2, hmax⟩ v hv
        subst hx2
        exact lt_of_le_of_lt (le_maxQ hv) hmax
    | nan => simp
    | nonNum => simp

theorem targetBelowB_iff (t : List Sample) (n : List Neighbor) (i : Nat)
    (hnv : neighborValsAt n i ≠ []) :
    targetBelowB t n i = true ↔ belowAtP t n i := by
  unfold targetBelowB belowAtP
  cases hget : t.get? i with
  | none => simp
  | some tv =>
    cases tv with
    | num x =>
      simp only [List.all_eq_true, decide_eq_true_eq, Option.some.injEq, Sample.num.injEq]
      constructor
      · intro h
        exact ⟨x, rfl, h (minQ (neighborValsAt n i)) (minQ_mem hnv)⟩
      · rintro ⟨x2, hx2, hmin⟩ v hv
        subst hx2
        exact lt_of_lt_of_le hmin (minQ_le hv)
    | nan => simp
    | nonNum => simp

/-! ### Classification lemmas for the detector body -/

theorem detectOutlier_some (t : List Sample) (n : List Neighbor) (lk : Int) :
    detectOutlier (Option.some t) (Option.some n) lk = detectCore t n lk := rfl

theorem detectCore_of_scan_high (t : List Sample) (n : List Neighbor) (lk : Int)
    (c : Nat) (ab : Bool) (hne : ¬(t = [] ∨ n = []))
    (hs : scanLoop t n (windowIdxs t.length lk) 0 true true = ScanResult.ok c true ab)
    (hc : c ≠ 0) : detectCore t n lk = Direction.high := by
  unfold detectCore
  rw [if_neg hne, hs]
  simp [hc]

theorem detectCore_of_scan_low (t : List Sample) (n : List Neighbor) (lk : Int)
    (c : Nat) (aa : Bool) (hne : ¬(t = [] ∨ n = []))
    (hs : scanLoop t n (windowIdxs t.length lk) 0 true true = ScanResult.ok c aa true)
    (hc : c ≠ 0) (haa : aa = false) : detectCore t n lk = Direction.low := by
  unfold detectCore
  rw [if_neg hne, hs, haa]
  simp [hc]

theorem detectCore_high_inv (t : List Sample) (n : List Neighbor) (lk : Int)
    (h : detectCore t n lk = Direction.high) :
    ∃ c ab, scanLoop t n (windowIdxs t.length lk) 0 true true = ScanResult.ok c true ab ∧
      c ≠ 0 := by
  unfold detectCore at h
  by_cases hne : t = [] ∨ n = []
  · rw [if_pos hne] at h
    exact absurd h (by simp)
  · rw [if_neg hne] at h
    cases hs : scanLoop t n (windowIdxs t.length lk) 0 true true with
    | ok c aa ab =>
      rw [hs] at h
      by_cases hc : c = 0
      · simp [hc] at h
      · cases aa with
        | true => exact ⟨c, ab, rfl, hc⟩
        | false =>
          cases ab with
          | true => simp [hc] at h
          | false => simp [hc] at h
    | exn =>
      rw [hs] at h
      exact absurd h (by simp)

theorem detectCore_low_inv (t : List Sample) (n : List Neighbor) (lk : Int)
    (h : detectCore t n lk = Direction.low) :
    ∃ c aa, scanLoop t n (windowIdxs t.length lk) 0 true true = ScanResult.ok c aa true ∧
      c ≠ 0 := by
  unfold detectCore at h
  by_cases hne : t = [] ∨ n = []
  · rw [if_pos hne] at h
    exact absurd h (by simp)
  · rw [if_neg hne] at h
    cases hs : scanLoop t n (windowIdxs t.length lk) 0 true true with
    | ok c aa ab =>
      rw [hs] at h
      by_cases hc : c = 0
      · simp [hc] at h
      · cases aa with
        | true => simp [hc] at h
        | false =>
          cases ab with
          | true => exact ⟨c, false, rfl, hc⟩
          | false => simp [hc] at h
    | exn =>
      rw [hs] at h
      exact absurd h (by simp)

theorem direction_cases (d : Direction) :
    d = Direction.high ∨ d = Direction.low ∨ d = Direction.none := by
  cases d
  · exact Or.inl rfl
  · exact Or.inr (Or.inl rfl)
  · exact Or.inr (Or.inr rfl)

/-! ### Claim theorems -/

/-- C1 (Monotonic separation): for a window in which every index with neighbor
data has the target value strictly above every neighbor value present there,
with at least one such index, the detector returns `high`; symmetrically, if
at every such index the target is strictly below every neighbor value there,
it returns `low`. -/
theorem monotonic_separation (t : List Sample) (n : List Neighbor) (lk : Int)
    (hchecked : ∃ i ∈ windowIdxs t.length lk, neighborValsAt n i ≠ []) :
    ((∀ i ∈ windowIdxs t.length lk, neighborValsAt n i ≠ [] → targetAboveB t n i = true) →
      detectOutlier (Option.some t) (Option.some n) lk = Direction.high) ∧
    ((∀ i ∈ windowIdxs t.length lk, neighborValsAt n i ≠ [] → targetBelowB t n i = true) →
      detectOutlier (Option.some t) (Option.some n) lk = Direction.low) := by
  obtain ⟨i0, hi0, hnv0⟩ := hchecked
  have ht : t ≠ [] := by
    intro hte
    rw [hte, List.length_nil, windowIdxs_zero_len] at hi0
    exact List.not_mem_nil i0 hi0
  have hn : n ≠ [] := by
    intro hne
    rw [hne] at hnv0
    exact hnv0 (neighborValsAt_nil i0)
  have hlen : 0 < t.length := List.length_pos.mpr ht
  have hin : ∀ i ∈ windowIdxs t.length lk, i < t.length := windowIdxs_mem_lt hlen
  have hne : ¬(t = [] ∨ n = []) := by
    rintro (h | h)
    · exact ht h
    · exact hn h
  have hcc : checkedCount n (windowIdxs t.length lk) ≠ 0 :=
    checkedCount_pos n _ ⟨i0, hi0, hnv0⟩
  constructor
  · intro habv
    have habv2 : ∀ i ∈ windowIdxs t.length lk, neighborValsAt n i ≠ [] → aboveAtP t n i :=
      fun i hi hnv => (targetAboveB_iff t n i hnv).mp (habv i hi hnv)
    obtain ⟨ab2, hrun⟩ := scan_above_run t n _ hin habv2 0 true
    rw [Nat.zero_add] at hrun
    rw [detectOutlier_some]
    exact detectCore_of_scan_high t n lk _ ab2 hne hrun hcc
  · intro hbel
    have hbel2 : ∀ i ∈ windowIdxs t.length lk, neighborValsAt n i ≠ [] → belowAtP t n i :=
      fun i hi hnv => (targetBelowB_iff t n i hnv).mp (hbel i hi hnv)
    obtain ⟨aa2, hrun, himp, hcnt⟩ := scan_below_run t n _ hin hbel2 0 true
    rw [Nat.zero_add] at hrun
    rw [detectOutlier_some]
    exact detectCore_of_scan_low t n lk _ aa2 hne hrun hcc (hcnt hcc)

/-- Witness for C1 at a concrete input: target strictly above two neighbors
at every window index gives `high`. -/
theorem monotonic_separation_witness :
    (∃ i ∈ windowIdxs 3 2,
      neighborValsAt [Neighbor.series [Sample.num 1, Sample.num 1, Sample.num 1],
        Neighbor.series [Sample.num 2, Sample.num 2, Sample.num 2]] i ≠ []) ∧
    detectOutlier (Option.some [Sample.num 10, Sample.num 10, Sample.num 10])
      (Option.some [Neighbor.series [Sample.num 1, Sample.num 1, Sample.num 1],
        Neighbor.series [Sample.num 2, Sample.num 2, Sample.num 2]]) 2 = Direction.high :=
  ⟨by decide,
    (monotonic_separation [Sample.num 10, Sample.num 10, Sample.num 10]
      [Neighbor.series [Sample.num 1, Sample.num 1, Sample.num 1],
        Neighbor.series [Sample.num 2, Sample.num 2, Sample.num 2]] 2 (by decide)).1
      (by decide)⟩

/-- C5 (Mixed direction): if among the window indices with neighbor data one
has the target strictly above all neighbor values and another has it strictly
below all neighbor values, the detector returns `none`. -/
theorem mixed_direction (t : List Sample) (n : List Neighbor) (lk : Int)
    (habove : ∃ i ∈ windowIdxs t.length lk,
      neighborValsAt n i ≠ [] ∧ targetAboveB t n i = true)
    (hbelow : ∃ j ∈ windowIdxs t.length lk,
      neighborValsAt n j ≠ [] ∧ targetBelowB t n j = true) :
    detectOutlier (Option.some t) (Option.some n) lk = Direction.none := by
  obtain ⟨i, hi, hnvi, hai⟩ := habove
  obtain ⟨j, hj, hnvj, hbj⟩ := hbelow
  have haiP := (targetAboveB_iff t n i hnvi).mp hai
  have hbjP := (targetBelowB_iff t n j hnvj).mp hbj
  rw [detectOutlier_some]
  rcases direction_cases (detectCore t n lk) with hd | hd | hd
  · exfalso
    obtain ⟨c, ab, hs, hc⟩ := detectCore_high_inv t n lk hd
    obtain ⟨x, hx, hmax⟩ := scan_ok_above_all t n _ 0 true true c ab hs j hj hnvj
    obtain ⟨x2, hx2, hmin⟩ := hbjP
    rw [hx] at hx2
    injection hx2 with hx3
    injection hx3 with hx4
    subst hx4
    have h1 : minQ (neighborValsAt n j) ≤ maxQ (neighborValsAt n j) :=
      minQ_le (maxQ_mem hnvj)
    linarith
  · exfalso
    obtain ⟨c, aa, hs, hc⟩ := detectCore_low_inv t n lk hd
    obtain ⟨x, hx, hmin⟩ := scan_ok_below_all t n _ 0 true true c aa hs i hi hnvi
    obtain ⟨x2, hx2, hmax⟩ := haiP
    rw [hx] at hx2
    injection hx2 with hx3
    injection hx3 with hx4
    subst hx4
    have h1 : minQ (neighborValsAt n i) ≤ maxQ (neighborValsAt n i) :=
      minQ_le (maxQ_mem hnvi)
    linarith
  · exact hd

/-- Witness for C5 at a concrete input: above at index 0, below at index 1,
result `none`. -/
theorem mixed_direction_witness :
    (∃ i ∈ windowIdxs 2 1,
      neighborValsAt [Neighbor.series [Sample.num 1, Sample.num 1]] i ≠ [] ∧
      targetAboveB [Sample.num 5, Sample.num 0]
        [Neighbor.series [Sample.num 1, Sample.num 1]] i = true) ∧
    (∃ j ∈ windowIdxs 2 1,
      neighborValsAt [Neighbor.series [Sample.num 1, Sample.num 1]] j ≠ [] ∧
      targetBelowB [Sample.num 5, Sample.num 0]
        [Neighbor.series [Sample.num 1, Sample.num 1]] j = true) ∧
    detectOutlier (Option.some [Sample.num 5, Sample.num 0])
      (Option.some [Neighbor.series [Sample.num 1, Sample.num 1]]) 1 = Direction.none :=
  ⟨by decide, by decide,
    mixed_direction [Sample.num 5, Sample.num 0]
      [Neighbor.series [Sample.num 1, Sample.num 1]] 1 (by decide) (by decide)⟩

/-- C6 (Tie-breaking): if at a window index with neighbor data the target
value equals the maximum of the neighbor values there, the detector does not
return `high`; if it equals the minimum there, it does not return `low`. -/
theorem tie_breaking (t : List Sample) (n : List Neighbor) (lk : Int) (i : Nat) (x : ℚ)
    (hiw : i ∈ windowIdxs t.length lk)
    (hnv : neighborValsAt n i ≠ [])
    (hx : t.get? i = Option.some (Sample.num x)) :
    (maxQ (neighborValsAt n i) = x →
      detectOutlier (Option.some t) (Option.some n) lk ≠ Direction.high) ∧
    (minQ (neighborValsAt n i) = x →
      detectOutlier (Option.some t) (Option.some n) lk ≠ Direction.low) := by
  constructor
  · intro hmax hd
    rw [detectOutlier_some] at hd
    obtain ⟨c, ab, hs, hc⟩ := detectCore_high_inv t n lk hd
    obtain ⟨x2, hx2, hlt⟩ := scan_ok_above_all t n _ 0 true true c ab hs i hiw hnv
    rw [hx] at hx2
    injection hx2 with hx3
    injection hx3 with hx4
    subst hx4
    rw [hmax] at hlt
    exact lt_irrefl x hlt
  · intro hmin hd
    rw [detectOutlier_some] at hd
    obtain ⟨c, aa, hs, hc⟩ := detectCore_low_inv t n lk hd
    obtain ⟨x2, hx2, hlt⟩ := scan_ok_below_all t n _ 0 true true c aa hs i hiw hnv
    rw [hx] at hx2
    injection hx2 with hx3
    injection hx3 with hx4
    subst hx4
    rw [hmin] at hlt
    exact lt_irrefl x hlt

/-- Witness for C6 at a concrete input: target ties the single neighbor, so
the result is neither `high` nor `low`. -/
theorem tie_breaking_witness :
    (0 ∈ windowIdxs 1 0 ∧
      neighborValsAt [Neighbor.series [Sample.num 1]] 0 ≠ [] ∧
      List.get? [Sample.num 1] 0 = Option.some (Sample.num 1) ∧
      maxQ (neighborValsAt [Neighbor.series [Sample.num 1]] 0) = 1 ∧
      minQ (neighborValsAt [Neighbor.series [Sample.num 1]] 0) = 1) ∧
    detectOutlier (Option.some [Sample.num 1])
      (Option.some [Neighbor.series [Sample.num 1]]) 0 ≠ Direction.high ∧
    detectOutlier (Option.some [Sample.num 1])
      (Option.some [Neighbor.series [Sample.num 1]]) 0 ≠ Direction.low :=
  ⟨by decide,
    (tie_breaking [Sample.num 1] [Neighbor.series [Sample.num 1]] 0 0 1
      (by decide) (by decide) (by decide)).1 (by decide),
    (tie_breaking [Sample.num 1] [Neighbor.series [Sample.num 1]] 0 0 1
      (by decide) (by decide) (by decide)).2 (by decide)⟩

/-- C4 counterexample: the target value at window index 2 is NaN, yet the
index is skipped (the only neighbor has no data there) and the result is
`high`, not `none` — refuting "a NaN anywhere in the window forces `none`". -/
theorem nan_target_counterexample :
    List.get? [Sample.num 5, Sample.num 5, Sample.nan] 2 = Option.some Sample.nan ∧
    2 ∈ windowIdxs 3 2 ∧
    detectOutlier (Option.some [Sample.num 5, Sample.num 5, Sample.nan])
      (Option.some [Neighbor.series [Sample.num 1, Sample.num 1]]) 2 = Direction.high := by
  decide

/-- C4 amended: if the target value at some window index that has at least
one collected neighbor value is NaN or non-numeric, the detector returns
`none`; an invalid target value at an index without neighbor data is simply
skipped. -/
theorem invalid_target_amended (t : List Sample) (n : List Neighbor) (lk : Int) (i : Nat)
    (hiw : i ∈ windowIdxs t.length lk)
    (hnv : neighborValsAt n i ≠ [])
    (hbad : t.get? i = Option.some Sample.nan ∨ t.get? i = Option.some Sample.nonNum) :
    detectOutlier (Option.some t) (Option.some n) lk = Direction.none := by
  rw [detectOutlier_some]
  rcases direction_cases (detectCore t n lk) with hd | hd | hd
  · exfalso
    obtain ⟨c, ab, hs, hc⟩ := detectCore_high_inv t n lk hd
    obtain ⟨x, hx, _⟩ := scan_ok_above_all t n _ 0 true true c ab hs i hiw hnv
    rcases hbad with hb | hb
    · rw [hb] at hx
      simp at hx
    · rw [hb] at hx
      simp at hx
  · exfalso
    obtain ⟨c, aa, hs, hc⟩ := detectCore_low_inv t n lk hd
    obtain ⟨x, hx, _⟩ := scan_ok_below_all t n _ 0 true true c aa hs i hiw hnv
    rcases hbad with hb | hb
    · rw [hb] at hx
      simp at hx
    · rw [hb] at hx
      simp at hx
  · exact hd

/-- Witness for the amended C4: a NaN target at a checked index yields
`none`. -/
theorem invalid_target_amended_witness :
    (0 ∈ windowIdxs 1 0 ∧
      neighborValsAt [Neighbor.series [Sample.num 1]] 0 ≠ [] ∧
      List.get? [Sample.nan] 0 = Option.some Sample.nan) ∧
    detectOutlier (Option.some [Sample.nan])
      (Option.some [Neighbor.series [Sample.num 1]]) 0 = Direction.none :=
  ⟨by decide,
    invalid_target_amended [Sample.nan] [Neighbor.series [Sample.num 1]] 0 0
      (by decide) (by decide) (Or.inl (by decide))⟩

/-- C8 (Empty-input degradation): an absent or empty target, or an absent or
empty neighbor mapping, yields `none`. -/
theorem empty_input_none (t? : Option (List Sample)) (n? : Option (List Neighbor)) (lk : Int)
    (h : t? = Option.none ∨ t? = Option.some [] ∨
      n? = Option.none ∨ n? = Option.some []) :
    detectOutlier t? n? lk = Direction.none := by
  rcases h with h | h | h | h
  · subst h
    cases n? with
    | none => rfl
    | some n => rfl
  · subst h
    cases n? with
    | none => rfl
    | some n =>
      rw [detectOutlier_some]
      unfold detectCore
      rw [if_pos (Or.inl rfl)]
  · subst h
    cases t? with
    | none => rfl
    | some t => rfl
  · subst h
    cases t? with
    | none => rfl
    | some t =>
      rw [detectOutlier_some]
      unfold detectCore
      rw [if_pos (Or.inr rfl)]

/-- Witness for C8: empty target list yields `none`. -/
theorem empty_input_none_witness :
    detectOutlier (Option.some []) (Option.some [Neighbor.series [Sample.num 1]]) 0
      = Direction.none :=
  empty_input_none (Option.some []) (Option.some [Neighbor.series [Sample.num 1]]) 0
    (Or.inr (Or.inl rfl))

/-- C10 (In-bounds access): for a non-empty target every window index is a
valid target index; every collected neighbor value comes from an in-range
read of a proper series; and a negative last-known-step index produces an
empty window and result `none`. -/
theorem inbounds_access (t : List Sample) (n : List Neighbor) (lk : Int) (ht : t ≠ []) :
    (∀ i ∈ windowIdxs t.length lk, i < t.length ∧ (t.get? i).isSome = true) ∧
    (∀ i : Nat, ∀ v ∈ neighborValsAt n i, ∃ s, Neighbor.series s ∈ n ∧ i < s.length ∧
      s.get? i = Option.some (Sample.num v)) ∧
    (lk < 0 → windowIdxs t.length lk = [] ∧
      detectOutlier (Option.some t) (Option.some n) lk = Direction.none) := by
  refine ⟨?_, ?_, ?_⟩
  · intro i hi
    have hlt := windowIdxs_mem_lt (List.length_pos.mpr ht) i hi
    refine ⟨hlt, ?_⟩
    obtain ⟨a, ha⟩ := get?_some_of_lt t i hlt
    rw [ha]
    rfl
  · intro i v hv
    unfold neighborValsAt at hv
    obtain ⟨nb, hnb, hf⟩ := List.mem_filterMap.mp hv
    cases nb with
    | malformed => simp at hf
    | series s =>
      have hf2 : (match s.get? i with
          | Option.some (Sample.num x) => Option.some x
          | _ => Option.none) = Option.some v := hf
      cases hg : s.get? i with
      | none =>
        rw [hg] at hf2
        simp at hf2
      | some sv =>
        cases sv with
        | num y =>
          rw [hg] at hf2
          simp at hf2
          subst hf2
          have hlt : i < s.length := by
            by_contra hcon
            have hnone : s.get? i = Option.none := List.get?_eq_none.mpr (by omega)
            rw [hnone] at hg
            simp at hg
          exact ⟨s, hnb, hlt, hg⟩
        | nan =>
          rw [hg] at hf2
          simp at hf2
        | nonNum =>
          rw [hg] at hf2
          simp at hf2
  · intro hlk
    have hw : windowIdxs t.length lk = [] := windowIdxs_neg hlk
    refine ⟨hw, ?_⟩
    rw [detectOutlier_some]
    unfold detectCore
    by_cases hne : t = [] ∨ n = []
    · rw [if_pos hne]
    · rw [if_neg hne, hw, scanLoop_nil]
      simp

/-- Witness for C10: a negative last-known-step index gives an empty window
and `none`. -/
theorem inbounds_access_witness :
    ([Sample.num 1] ≠ ([] : List Sample)) ∧ ((-1 : Int) < 0) ∧
    (windowIdxs (List.length [Sample.num 1]) (-1) = [] ∧
      detectOutlier (Option.some [Sample.num 1])
        (Option.some [Neighbor.series [Sample.num 1]]) (-1) = Direction.none) :=
  ⟨by decide, by decide,
    (inbounds_access [Sample.num 1] [Neighbor.series [Sample.num 1]] (-1) (by decide)).2.2
      (by decide)⟩

/-- C3 counterexample: both series have length 1, far below the alleged
minimum-length threshold of 50, yet the detector classifies (`high`), not
`none` — there is no minimum-length gate in the code. -/
theorem min_length_counterexample :
    List.length [Sample.num 5] ≤ 50 ∧
    List.length [Sample.num 1] ≤ 50 ∧
    detectOutlier (Option.some [Sample.num 5])
      (Option.some [Neighbor.series [Sample.num 1]]) 0 ≠ Direction.none := by
  decide

/-- C3 amended: the detector applies no minimum-length gating beyond
non-emptiness; a single-sample target strictly above a single-sample
neighbor is classified `high` (in particular `target = [5]`,
`neighbors = {1: [1]}` yields `high`, not `none`). -/
theorem no_min_length_gate (a b : ℚ) (hab : b < a) :
    detectOutlier (Option.some [Sample.num a])
      (Option.some [Neighbor.series [Sample.num b]]) 0 = Direction.high := by
  rw [detectOutlier_some]
  have hnvb : neighborValsAt [Neighbor.series [Sample.num b]] 0 = [b] := rfl
  have hnvne : neighborValsAt [Neighbor.series [Sample.num b]] 0 ≠ [] := by
    rw [hnvb]
    exact List.cons_ne_nil b []
  have hw : windowIdxs 1 0 = [0] := by decide
  have hget : List.get? [Sample.num a] 0 = Option.some (Sample.num a) := rfl
  have hmax : maxQ (neighborValsAt [Neighbor.series [Sample.num b]] 0) = b := by
    rw [hnvb]
    rfl
  have hmin : minQ (neighborValsAt [Neighbor.series [Sample.num b]] 0) = b := by
    rw [hnvb]
    rfl
  have hd1 : decide (maxQ (neighborValsAt [Neighbor.series [Sample.num b]] 0) < a) = true := by
    rw [hmax]
    exact decide_eq_true hab
  have hd2 : decide (a < minQ (neighborValsAt [Neighbor.series [Sample.num b]] 0)) = false := by
    rw [hmin]
    exact decide_eq_false (not_lt.mpr (le_of_lt hab))
  have hs : scanLoop [Sample.num a] [Neighbor.series [Sample.num b]]
      (windowIdxs 1 0) 0 true true =
      ScanResult.ok 1 true false := by
    rw [hw, scanLoop_cons_num [Sample.num a] [Neighbor.series [Sample.num b]]
      0 [] 0 true true a hget hnvne, hd1, hd2]
    simp [scanLoop_nil]
  exact detectCore_of_scan_high [Sample.num a] [Neighbor.series [Sample.num b]] 0 1 false
    (by simp) hs (by omega)

/-- Witness for the amended C3: the spec's own too-short example is
classified `high`. -/
theorem no_min_length_gate_witness :
    ((1 : ℚ) < 5) ∧
    detectOutlier (Option.some [Sample.num 5])
      (Option.some [Neighbor.series [Sample.num 1]]) 0 = Direction.high :=
  ⟨by decide, no_min_length_gate 5 1 (by decide)⟩

/-- C2 counterexample: with a last-known-step index of 0 in a length-3
series, the code scans window `[0]`, not the trailing indices `[0, 1, 2]`;
on a concrete input the code answers `high` while the trailing-window
variant described by the claim answers `none`. -/
theorem window_anchoring_counterexample :
    windowIdxs 3 0 = [0] ∧
    windowIdxs 3 0 ≠ [0, 1, 2] ∧
    detectOutlier (Option.some [Sample.num 10, Sample.num 10, Sample.num 0])
      (Option.some [Neighbor.series [Sample.num 5, Sample.num 5, Sample.num 5]]) 0
      = Direction.high ∧
    detectOutlierTrailing [Sample.num 10, Sample.num 10, Sample.num 0]
      [Neighbor.series [Sample.num 5, Sample.num 5, Sample.num 5]] 3
      = Direction.none := by
  decide

/-- C2 amended: the comparison window is anchored at the last-known-step
index — it is the absolute indices `max(0, e - 2) .. e` with
`e = min(last_known_step_index, len(target) - 1)`, shared across target and
neighbors — so the detector's result depends only on the target values at
those window indices: two targets of equal length agreeing there are
classified identically. -/
theorem window_anchoring_amended (t t2 : List Sample) (n : List Neighbor) (lk : Int)
    (hlen : t.length = t2.length)
    (hagree : ∀ i ∈ windowIdxs t.length lk, t.get? i = t2.get? i) :
    detectOutlier (Option.some t) (Option.some n) lk
      = detectOutlier (Option.some t2) (Option.some n) lk := by
  rw [detectOutlier_some, detectOutlier_some]
  unfold detectCore
  by_cases ht : t = []
  · have ht2 : t2 = [] := by
      apply List.length_eq_zero.mp
      rw [← hlen, ht]
      rfl
    rw [if_pos (Or.inl ht), if_pos (Or.inl ht2)]
  · have ht2 : t2 ≠ [] := by
      intro h
      apply ht
      apply List.length_eq_zero.mp
      rw [hlen, h]
      rfl
    by_cases hn : n = []
    · rw [if_pos (Or.inr hn), if_pos (Or.inr hn)]
    · rw [if_neg (by
          rintro (h | h)
          · exact ht h
          · exact hn h),
        if_neg (by
          rintro (h | h)
          · exact ht2 h
          · exact hn h)]
      rw [← hlen, scan_congr_target t t2 n _ hagree 0 true true]

/-- Witness for the amended C2: two targets agreeing on the window `[0]`
but differing at index 1 classify identically. -/
theorem window_anchoring_amended_witness :
    List.length [Sample.num 9, Sample.num 5] = List.length [Sample.num 9, Sample.num 7] ∧
    (∀ i ∈ windowIdxs (List.length [Sample.num 9, Sample.num 5]) 0,
      List.get? [Sample.num 9, Sample.num 5] i = List.get? [Sample.num 9, Sample.num 7] i) ∧
    detectOutlier (Option.some [Sample.num 9, Sample.num 5])
        (Option.some [Neighbor.series [Sample.num 1, Sample.num 1]]) 0
      = detectOutlier (Option.some [Sample.num 9, Sample.num 7])
        (Option.some [Neighbor.series [Sample.num 1, Sample.num 1]]) 0 :=
  ⟨by decide, by decide,
    window_anchoring_amended [Sample.num 9, Sample.num 5] [Sample.num 9, Sample.num 7]
      [Neighbor.series [Sample.num 1, Sample.num 1]] 0 (by decide) (by decide)⟩

theorem neighborValsAt_drop_malformed (n1 n2 : List Neighbor) (i : Nat) :
    neighborValsAt (n1 ++ Neighbor.malformed :: n2) i = neighborValsAt (n1 ++ n2) i := by
  simp [neighborValsAt, List.filterMap_append, List.filterMap_cons]

/-- C7 counterexample: a malformed neighbor entry is a fault during
extraction, yet it is merely skipped (inner `except ... continue`) — the
remaining neighbor still produces `high`, so not every fault degrades the
result to `none`. -/
theorem fault_skip_counterexample :
    detectOutlier (Option.some [Sample.num 5, Sample.num 5, Sample.num 5])
      (Option.some [Neighbor.malformed,
        Neighbor.series [Sample.num 1, Sample.num 1, Sample.num 1]]) 2
      = Direction.high ∧
    Direction.high ≠ Direction.none := by
  decide

/-- C7 amended: the detection step is total — its result is always one of
`high`/`low`/`none`; an exception escaping the scan loop (a non-numeric
target comparison or an out-of-range target read) degrades the result to
`none`; but a fault extracting a single neighbor's value only skips that
neighbor: deleting a malformed neighbor entry never changes the result. -/
theorem detector_fault_amended (t? : Option (List Sample)) (n? : Option (List Neighbor))
    (lk : Int) :
    (detectOutlier t? n? lk = Direction.high ∨ detectOutlier t? n? lk = Direction.low ∨
      detectOutlier t? n? lk = Direction.none) ∧
    (∀ t n, t? = Option.some t → n? = Option.some n →
      scanLoop t n (windowIdxs t.length lk) 0 true true = ScanResult.exn →
      detectOutlier t? n? lk = Direction.none) ∧
    (∀ t n1 n2, t? = Option.some t → n? = Option.some (n1 ++ Neighbor.malformed :: n2) →
      detectOutlier t? n? lk = detectOutlier (Option.some t) (Option.some (n1 ++ n2)) lk) := by
  refine ⟨direction_cases _, ?_, ?_⟩
  · rintro t n rfl rfl hs
    rw [detectOutlier_some]
    unfold detectCore
    by_cases hne : t = [] ∨ n = []
    · rw [if_pos hne]
    · rw [if_neg hne, hs]
  · rintro t n1 n2 rfl rfl
    rw [detectOutlier_some, detectOutlier_some]
    unfold detectCore
    by_cases ht : t = []
    · rw [if_pos (Or.inl ht), if_pos (Or.inl ht)]
    · have hne1 : ¬(t = [] ∨ n1 ++ Neighbor.malformed :: n2 = []) := by
        rintro (h | h)
        · exact ht h
        · simp at h
      rw [if_neg hne1]
      by_cases hn12 : n1 ++ n2 = []
      · obtain ⟨hn1, hn2⟩ := List.append_eq_nil.mp hn12
        subst hn1
        subst hn2
        have hskip : scanLoop t [Neighbor.malformed] (windowIdxs t.length lk) 0 true true
            = ScanResult.ok 0 true true :=
          scan_all_skip t [Neighbor.malformed] _
            (windowIdxs_mem_lt (List.length_pos.mpr ht)) (fun i _ => rfl) 0 true true
        simp only [List.nil_append] at hskip ⊢
        rw [hskip]
        simp
      · rw [if_neg (by
          rintro (h | h)
          · exact ht h
          · exact hn12 h)]
        rw [scan_congr_nvals t _ _ (neighborValsAt_drop_malformed n1 n2)
          (windowIdxs t.length lk) 0 true true]

/-- Witness for the amended C7: a non-numeric target sample raises inside
the loop and the result degrades to `none`; a malformed neighbor entry is
dropped without changing the result. -/
theorem detector_fault_amended_witness :
    scanLoop [Sample.nonNum] [Neighbor.series [Sample.num 1]]
      (windowIdxs (List.length [Sample.nonNum]) 0) 0 true true = ScanResult.exn ∧
    detectOutlier (Option.some [Sample.nonNum])
      (Option.some [Neighbor.series [Sample.num 1]]) 0 = Direction.none ∧
    detectOutlier (Option.some [Sample.num 5])
        (Option.some ([] ++ Neighbor.malformed :: [Neighbor.series [Sample.num 1]])) 0
      = detectOutlier (Option.some [Sample.num 5])
        (Option.some ([] ++ [Neighbor.series [Sample.num 1]])) 0 :=
  ⟨by decide,
    (detector_fault_amended (Option.some [Sample.nonNum])
      (Option.some [Neighbor.series [Sample.num 1]]) 0).2.1
      [Sample.nonNum] [Neighbor.series [Sample.num 1]] rfl rfl (by decide),
    (detector_fault_amended (Option.some [Sample.num 5])
      (Option.some ([] ++ Neighbor.malformed :: [Neighbor.series [Sample.num 1]])) 0).2.2
      [Sample.num 5] [] [Neighbor.series [Sample.num 1]] rfl rfl⟩

/-- C9 (Direction-specific report phrasing): the per-border report block
contains the caveat exactly when the direction is `high` or `low`; for
`high` it uses the downward-correction phrase 下振れ (and not 上振れ), for
`low` the upward-correction phrase 上振れ (and not 下振れ); the image
annotation is present under the same condition with the same phrase pair. -/
theorem report_phrasing :
    (containsSub (borderBlockText 100 "15万" "14万" "16万" "14.5万" "15.5万" Direction.high)
        "※このボーダーは" = true ∧
      containsSub (borderBlockText 100 "15万" "14万" "16万" "14.5万" "15.5万" Direction.high)
        "下振れ" = true ∧
      containsSub (borderBlockText 100 "15万" "14万" "16万" "14.5万" "15.5万" Direction.high)
        "上振れ" = false) ∧
    (containsSub (borderBlockText 2500 "3万" "2.5万" "3.5万" "2.8万" "3.2万" Direction.low)
        "※このボーダーは" = true ∧
      containsSub (borderBlockText 2500 "3万" "2.5万" "3.5万" "2.8万" "3.2万" Direction.low)
        "上振れ" = true ∧
      containsSub (borderBlockText 2500 "3万" "2.5万" "3.5万" "2.8万" "3.2万" Direction.low)
        "下振れ" = false) ∧
    (containsSub (borderBlockText 100 "15万" "14万" "16万" "14.5万" "15.5万" Direction.none)
        "※このボーダーは" = false ∧
      containsSub (borderBlockText 100 "15万" "14万" "16万" "14.5万" "15.5万" Direction.none)
        "下振れ" = false ∧
      containsSub (borderBlockText 100 "15万" "14万" "16万" "14.5万" "15.5万" Direction.none)
        "上振れ" = false) ∧
    (imageWarnText Direction.high =
        Option.some "※このボーダーは過去同タイプ比で高めのため、予測は下振れしやすいです。" ∧
      imageWarnText Direction.low =
        Option.some "※このボーダーは過去同タイプ比で低めのため、予測は上振れしやすいです。" ∧
      imageWarnText Direction.none = Option.none) := by
  refine ⟨⟨?_, ?_, ?_⟩, ⟨?_, ?_, ?_⟩, ⟨?_, ?_, ?_⟩, ?_, ?_, ?_⟩ <;> decide
